import Mathlib

/-
Verification of the orbit.js coordinated source/transform core against its
specification.  The JavaScript sources are shallowly embedded as executable
Lean definitions:

  * the Evented emit disciplines (series / settle / resolve) and the on/off
    listener registry, from the Evented interface source;
  * the Action wrapper around a retriable thunk, from the Action class;
  * the JSONAPISource request-cap checks and URL construction;
  * the CacheIntegrityProcessor reverse index, modelled from the spec (its
    implementation file is not among the sources; only its unit test is) and
    validated against that test's expected states.

Asynchronous control flow is embedded by abstracting each listener / thunk
invocation as its observable outcome (a falsy return, an awaitable that
resolves, an awaitable that rejects, or a synchronous throw) and translating
the promise plumbing of the source into a recursion over the outcome list.
-/

namespace Orbit

/-! ## Association-list helpers

JavaScript objects used as string-keyed dictionaries (the listener registry
and the reverse index of the integrity processor) are embedded as association
lists that keep track of key presence: deleting a property of a nested object
leaves the enclosing object (possibly empty) in place, and the unit tests of
the integrity processor distinguish an absent key from a key mapped to an
empty object. -/

/-- Lookup of a key in an association list (JavaScript property read). -/
def alGet (k : String) : List (String × α) → Option α
  | [] => none
  | (k1, v) :: rest => if k1 = k then some v else alGet k rest

/-- Update the value at a key, inserting the key (applied to the default) when
it is absent; embeds the idiom obj[k] = f(obj[k] || d). -/
def alUpdate (k : String) (f : α → α) (d : α) : List (String × α) → List (String × α)
  | [] => [(k, f d)]
  | (k1, v) :: rest =>
    if k1 = k then (k1, f v) :: rest else (k1, v) :: alUpdate k f d rest

/-- Update the value at a key only when the key is present. -/
def alMapAt (k : String) (f : α → α) : List (String × α) → List (String × α)
  | [] => []
  | (k1, v) :: rest =>
    if k1 = k then (k1, f v) :: rest else (k1, v) :: alMapAt k f rest

/-- Delete a key (JavaScript delete obj[k]); other keys are untouched. -/
def alDel (k : String) : List (String × α) → List (String × α)
  | [] => []
  | (k1, v) :: rest =>
    if k1 = k then alDel k rest else (k1, v) :: alDel k rest

/-- Remove the first element satisfying the predicate, as Array.splice does in
a first-match scan; the rest of the list is untouched. -/
def removeFirst (p : α → Bool) : List α → List α
  | [] => []
  | x :: rest => if p x then rest else x :: removeFirst p rest

/-! ## Evented emit disciplines

The series / settle / resolve emitters of the Evented interface first snapshot
the listener list and then walk it inside a promise executor.  Each listener
invocation is abstracted by its observable outcome. -/

/-- Observable outcome of invoking one listener, as the emit loops distinguish
them: a falsy return value (nothing to await), a returned awaitable that
resolves, a returned awaitable that rejects, or a synchronous throw. -/
inductive Outcome (V E : Type) where
  | falsy
  | resolves (v : V)
  | rejects (e : E)
  | throws (e : E)
deriving DecidableEq

/-- Final state of the composite promise returned by the series and settle
emitters. -/
inductive EmitCompletion (E : Type) where
  | resolved
  | rejected (e : E)
deriving DecidableEq

/-- Whether the series loop treats the outcome as a failure: a rejecting
awaitable reaches the rejection handler of the chain, and a synchronous throw
is caught either by the promise constructor (while still inside the executor)
or by the catch attached behind the then callback; both reject the composite. -/
def Outcome.failed : Outcome V E → Bool
  | .rejects _ => true
  | .throws _ => true
  | _ => false

/-- Shallow embedding of the series emitter: walk the listener outcomes
in registration order; a falsy return continues synchronously, a resolving
awaitable continues after the await, and the first failure rejects the
composite with its error, invoking no further listener.  The second component
counts the listeners actually invoked. -/
def seriesRun : List (Outcome V E) → EmitCompletion E × Nat
  | [] => (.resolved, 0)
  | o :: rest =>
    match o with
    | .falsy => let (r, n) := seriesRun rest; (r, n + 1)
    | .resolves _ => let (r, n) := seriesRun rest; (r, n + 1)
    | .rejects e => (.rejected e, 1)
    | .throws e => (.rejected e, 1)

/-- Shallow embedding of the settle emitter: the listener call is wrapped in
try/catch (a throw is logged and ignored), a returned awaitable is awaited and
both its resolution and its rejection continue with the next listener, and the
composite resolves when the list is exhausted. -/
def settleRun : List (Outcome V E) → EmitCompletion E × Nat
  | [] => (.resolved, 0)
  | o :: rest =>
    match o with
    | .falsy => let (r, n) := settleRun rest; (r, n + 1)
    | .resolves _ => let (r, n) := settleRun rest; (r, n + 1)
    | .rejects _ => let (r, n) := settleRun rest; (r, n + 1)
    | .throws _ => let (r, n) := settleRun rest; (r, n + 1)

/-- Final state of the composite promise returned by the resolve emitter:
resolved with a winning value, rejected with no argument when the listeners
are exhausted, rejected with a synchronously thrown error while still inside
the executor, or never settled (a throw inside a catch callback is unhandled). -/
inductive ResolveResult (V E : Type) where
  | resolved (v : V)
  | rejected
  | thrown (e : E)
  | hung
deriving DecidableEq

/-- Whether the resolve loop passes over the outcome without winning: a falsy
return continues synchronously and a rejecting awaitable continues through the
catch handler. -/
def Outcome.passedOver : Outcome V E → Bool
  | .falsy => true
  | .rejects _ => true
  | _ => false

/-- Shallow embedding of the resolve emitter: the first listener whose
returned (truthy) awaitable resolves wins and its value settles the composite;
a falsy return or a rejecting awaitable moves on to the next listener; an
exhausted list rejects with no argument.  The flag records whether the loop is
still inside the promise executor (it leaves it after the first awaited
rejection), which decides the fate of a synchronous throw. -/
def resolveRun (asyncCtx : Bool) : List (Outcome V E) → ResolveResult V E × Nat
  | [] => (.rejected, 0)
  | o :: rest =>
    match o with
    | .falsy => let (r, n) := resolveRun asyncCtx rest; (r, n + 1)
    | .resolves v => (.resolved v, 1)
    | .rejects _ => let (r, n) := resolveRun true rest; (r, n + 1)
    | .throws e => if asyncCtx then (.hung, 1) else (.thrown e, 1)

/-! ## Action

The Action class wraps a thunk; its constructor calls reset, which installs a
fresh pending promise in the complete field.  A promise settles at most once;
the embedding keeps a generation counter so that the identity of the promise
object currently stored in complete is observable. -/

/-- State of a single promise: pending until its first settlement, after which
further resolve/reject calls are ignored. -/
inductive PromiseState (V E : Type) where
  | pending
  | resolvedWith (v : V)
  | rejectedWith (e : E)
deriving DecidableEq

/-- Resolve a promise: only a pending promise is settled. -/
def PromiseState.resolve (p : PromiseState V E) (v : V) : PromiseState V E :=
  match p with
  | .pending => .resolvedWith v
  | _ => p

/-- Reject a promise: only a pending promise is settled. -/
def PromiseState.reject (p : PromiseState V E) (e : E) : PromiseState V E :=
  match p with
  | .pending => .rejectedWith e
  | _ => p

/-- Observable state of an Action: the processing flag, the promise currently
stored in the complete field, and a generation counter that is bumped each
time reset allocates a fresh promise object for complete. -/
structure ActionState (V E : Type) where
  processing : Bool
  completeGen : Nat
  complete : PromiseState V E
deriving DecidableEq

/-- Outcome of invoking the wrapped function inside process: a synchronous
return with no then method (settled immediately), an awaitable that resolves,
an awaitable that rejects, or a synchronous throw. -/
inductive ProcOutcome (V E : Type) where
  | syncReturn (v : V)
  | asyncResolves (v : V)
  | asyncRejects (e : E)
  | syncThrows (e : E)
deriving DecidableEq

/-- Error carried by a failing process outcome, if any. -/
def ProcOutcome.failure : ProcOutcome V E → Option E
  | .asyncRejects e => some e
  | .syncThrows e => some e
  | _ => none

namespace Action

/-- State set up by the Action constructor (which invokes reset on a fresh
object). -/
def initial : ActionState V E :=
  { processing := false, completeGen := 0, complete := .pending }

/-- Shallow embedding of Action.reset: clear the processing flag and install a
fresh pending promise in complete (the generation counter records the
allocation). -/
def reset (s : ActionState V E) : ActionState V E :=
  { processing := false, completeGen := s.completeGen + 1, complete := .pending }

/-- Shallow embedding of Action.process, abstracting the wrapped function by
its outcome: when the processing flag is clear it is set and the function is
invoked; didProcess resolves the complete promise, while didNotProcess clears
the processing flag and rejects it.  The complete promise itself is returned
by the source; the embedding returns the updated state. -/
def process (s : ActionState V E) (o : ProcOutcome V E) : ActionState V E :=
  if s.processing then s
  else
    match o with
    | .syncReturn v => { s with processing := true, complete := s.complete.resolve v }
    | .asyncResolves v => { s with processing := true, complete := s.complete.resolve v }
    | .asyncRejects e => { s with processing := false, complete := s.complete.reject e }
    | .syncThrows e => { s with processing := false, complete := s.complete.reject e }

end Action

/-! ## JSONAPISource: request caps and URL construction -/

/-- Result of the internal transform entry point of the JSON:API source. -/
inductive TransformResult (Er Tr : Type) where
  | transformNotAllowed (requestCount limit : Nat)
  | failed (e : Er)
  | ok (transforms : List Tr)
deriving DecidableEq

/-- Result of the internal fetch entry point of the JSON:API source. -/
inductive FetchResult (Er Tr : Type) where
  | fetchNotAllowed (requestCount limit : Nat)
  | failed (e : Er)
  | ok (transforms : List Tr)
deriving DecidableEq

namespace JSONAPISource

/-- Shallow embedding of JSONAPISource.prototype._processRequests: requests
are dispatched sequentially through their processor, the transforms returned
by each are accumulated, and a failing request aborts the remainder.  The
second component lists the requests actually dispatched. -/
def processRequests (proc : Req → Except Er (List Tr)) :
    List Req → Except Er (List Tr) × List Req
  | [] => (.ok [], [])
  | r :: rest =>
    match proc r with
    | .error e => (.error e, [r])
    | .ok ts =>
      let (res, dispatched) := processRequests proc rest
      (match res with
       | .ok more => .ok (ts ++ more)
       | .error e => .error e,
       r :: dispatched)

/-- Shallow embedding of JSONAPISource.prototype._transform.  The request list
derived by getTransformRequests (whose module is not among the sources) is
abstracted as an argument.  A configured (truthy, that is nonzero) cap that is
exceeded rejects with TransformNotAllowed before any request is dispatched;
otherwise the requests are processed sequentially and the original transform
is prepended to the resulting transforms. -/
def transformImpl (maxRequestsPerTransform : Nat) (proc : Req → Except Er (List Tr))
    (transform : Tr) (requests : List Req) : TransformResult Er Tr × List Req :=
  if maxRequestsPerTransform ≠ 0 ∧ requests.length > maxRequestsPerTransform then
    (.transformNotAllowed requests.length maxRequestsPerTransform, [])
  else
    match processRequests proc requests with
    | (.ok ts, dispatched) => (.ok (transform :: ts), dispatched)
    | (.error e, dispatched) => (.failed e, dispatched)

/-- Shallow embedding of JSONAPISource.prototype._fetch, with the request list
derived by getFetchRequests abstracted as an argument: an exceeded nonzero cap
rejects with FetchNotAllowed before any request is dispatched. -/
def fetchImpl (maxRequestsPerFetch : Nat) (proc : Req → Except Er (List Tr))
    (requests : List Req) : FetchResult Er Tr × List Req :=
  if maxRequestsPerFetch ≠ 0 ∧ requests.length > maxRequestsPerFetch then
    (.fetchNotAllowed requests.length maxRequestsPerFetch, [])
  else
    match processRequests proc requests with
    | (.ok ts, dispatched) => (.ok ts, dispatched)
    | (.error e, dispatched) => (.failed e, dispatched)

end JSONAPISource

/-- Truthiness of an optional string, as the URL builder tests host, namespace
and resource id: absent and empty strings are falsy. -/
def jsTruthy : Option String → Bool
  | none => false
  | some s => decide (s ≠ "")

/-- Embedding of Array.prototype.join with separator slash. -/
def joinSlash : List String → String
  | [] => ""
  | [s] => s
  | s :: rest => s ++ "/" ++ joinSlash rest

/-- The serializer methods the URL builder consults, abstracted: the
pluralized resource type, the optional serialized resource id, and the
serialized relationship name. -/
structure SerializerModel where
  resourceType : String → String
  resourceId : String → String → Option String
  resourceRelationship : String → String → String

namespace JSONAPISource

/-- Shallow embedding of JSONAPISource.prototype.resourcePath: the pluralized
resource type, followed by the serialized resource id when both the id and its
serialization are truthy, joined with slashes. -/
def resourcePath (ser : SerializerModel) (type : String) (id : Option String) : String :=
  let path := [ser.resourceType type]
  let path :=
    if jsTruthy id then
      let resourceId := ser.resourceId type (id.getD "")
      if jsTruthy resourceId then path ++ [resourceId.getD ""] else path
    else path
  joinSlash path

/-- Shallow embedding of JSONAPISource.prototype.resourceURL: the truthy host
and truthy namespace are prepended to the resource path, the pieces are joined
with slashes, and a leading slash is prefixed when there is no host. -/
def resourceURL (host nspace : Option String) (ser : SerializerModel)
    (type : String) (id : Option String) : String :=
  let url :=
    (if jsTruthy host then [host.getD ""] else []) ++
    (if jsTruthy nspace then [nspace.getD ""] else []) ++
    [resourcePath ser type id]
  let joined := joinSlash url
  if jsTruthy host then joined else "/" ++ joined

/-- Shallow embedding of JSONAPISource.prototype.resourceRelationshipURL: the
resource URL followed by the relationships segment and the serialized
relationship name. -/
def resourceRelationshipURL (host nspace : Option String) (ser : SerializerModel)
    (type : String) (id : Option String) (relationship : String) : String :=
  resourceURL host nspace ser type id ++ "/relationships/" ++
    ser.resourceRelationship type relationship

end JSONAPISource

/-- Modelled from the spec: the transform-request mapping of the JSON:API
source (the transform-requests module is not among the sources); per the spec
an addToHasMany operation is sent as a POST to the resource relationship URL
of the operation's record and relationship. -/
def addToHasManyRequest (host nspace : Option String) (ser : SerializerModel)
    (type id relationship : String) : String × String :=
  ("POST", JSONAPISource.resourceRelationshipURL host nspace ser type (some id) relationship)

/-! ## Evented listener registry (on / off / listeners)

Callbacks and bindings are abstracted by numeric identifiers; a notifier keeps
its listener list as (callback, binding) pairs in registration order. -/

/-- Modelled from the spec: the Notifier class (its module is not among the
sources; the Evented interface calls addListener, removeListener and reads
listeners).  addListener appends the (callback, binding) pair; removeListener
scans for the first pair with that callback and binding and splices it out. -/
structure Notifier where
  listeners : List (Nat × Nat)
deriving DecidableEq

/-- Append a listener registration to a notifier. -/
def Notifier.addListener (n : Notifier) (callback binding : Nat) : Notifier :=
  ⟨n.listeners ++ [(callback, binding)]⟩

/-- Remove the first registration of the given callback and binding. -/
def Notifier.removeListener (n : Notifier) (callback binding : Nat) : Notifier :=
  ⟨removeFirst (fun p => decide (p = (callback, binding))) n.listeners⟩

/-- The eventedNotifiers registry of an object carrying the Evented
interface: one notifier per event name, keyed by name. -/
structure EventedState where
  notifiers : List (String × Notifier)
deriving DecidableEq

namespace Evented

/-- Shallow embedding of the on method for a single event name (the name on
itself is reserved notation in Lean): the notifier for the event is created
when undefined and the listener is added to it. -/
def onEvent (s : EventedState) (eventName : String) (callback binding : Nat) : EventedState :=
  ⟨alUpdate eventName (fun n => n.addListener callback binding) ⟨[]⟩ s.notifiers⟩

/-- Shallow embedding of the off method for a single event name: with no
notifier registered nothing happens; with a callback supplied only that
listener/binding registration is removed from the notifier; with no callback
the whole notifier is deleted from the registry. -/
def off (s : EventedState) (eventName : String) (callback : Option Nat) (binding : Nat) :
    EventedState :=
  match alGet eventName s.notifiers with
  | none => s
  | some _ =>
    match callback with
    | some c => ⟨alMapAt eventName (fun n => n.removeListener c binding) s.notifiers⟩
    | none => ⟨alDel eventName s.notifiers⟩

/-- Shallow embedding of the listeners method for a single event name: the
notifier's listener list, or the empty list when no notifier is registered. -/
def listeners (s : EventedState) (eventName : String) : List (Nat × Nat) :=
  match alGet eventName s.notifiers with
  | some n => n.listeners
  | none => []

end Evented

/-! ## Cache data model and the cache integrity processor

The processor implementation file is not among the sources; only its unit
test is.  The processor below is modelled from the spec's detailed reverse
index mutation rules and validated against the expected states of that test. -/

/-- Record identity: a type and an id, both strings. -/
structure RecordIdentity where
  type : String
  id : String
deriving DecidableEq

/-- Relationship data of a record: a hasOne slot holding an optional related
identity, or a hasMany set of related identities (the string keys of the
JavaScript data object, here kept structurally). -/
inductive RelData where
  | one (related : Option RecordIdentity)
  | many (related : List RecordIdentity)
deriving DecidableEq

/-- A cached record: its identity and its relationships keyed by name.
Attributes and keys play no role in the reverse index and are omitted. -/
structure RecordData where
  ident : RecordIdentity
  relationships : List (String × RelData)
deriving DecidableEq

/-- The record map of the cache. -/
abbrev Cache := List RecordData

/-- Operations, as carried by transforms; replaceKey and replaceAttribute do
not touch relationships and are omitted. -/
inductive Op where
  | addRecord (record : RecordData)
  | replaceRecord (record : RecordData)
  | removeRecord (record : RecordIdentity)
  | addToHasMany (record : RecordIdentity) (relationship : String)
      (relatedRecord : RecordIdentity)
  | removeFromHasMany (record : RecordIdentity) (relationship : String)
      (relatedRecord : RecordIdentity)
  | replaceHasMany (record : RecordIdentity) (relationship : String)
      (relatedRecords : List RecordIdentity)
  | replaceHasOne (record : RecordIdentity) (relationship : String)
      (relatedRecord : Option RecordIdentity)
deriving DecidableEq

/-- A reverse index key: the relationship slot of a source record pointing at
the related record, rendered in the index as
source.type/source.id/relationships/name/data for a hasOne slot and with the
related key appended for a hasMany slot (the key field holds that related
identity). -/
structure RevPath where
  source : RecordIdentity
  relationship : String
  key : Option RecordIdentity
deriving DecidableEq

/-- The paths recorded for one related record (the keys of the innermost
object, each mapped to true). -/
abbrev PathSet := List RevPath

/-- The per-type slice of the reverse index, keyed by record id. -/
abbrev RevIdMap := List (String × PathSet)

/-- The reverse index, keyed by related-record type, then id. -/
abbrev Rev := List (String × RevIdMap)

/-- Lookup of the path set recorded under a type and id, distinguishing an
absent id key (none) from a present id key with an empty set (some empty). -/
def revLookup (r : Rev) (type id : String) : Option PathSet :=
  (alGet type r).bind (alGet id)

/-- Paths recorded under a type and id, defaulting to the empty set. -/
def revPaths (r : Rev) (type id : String) : PathSet :=
  (revLookup r type id).getD []

/-- Insert a path into a path set unless it is already present. -/
def pushPath (p : RevPath) (ps : PathSet) : PathSet :=
  if p ∈ ps then ps else ps ++ [p]

/-- Record a pointer in the reverse index, creating the type and id keys as
needed. -/
def revAdd (r : Rev) (related : RecordIdentity) (p : RevPath) : Rev :=
  alUpdate related.type (alUpdate related.id (pushPath p) []) [] r

/-- Delete one pointer from the reverse index; the type and id keys are kept
(a JavaScript property delete leaves the enclosing objects in place). -/
def revDelPath (r : Rev) (related : RecordIdentity) (p : RevPath) : Rev :=
  alMapAt related.type (alMapAt related.id (fun ps => ps.filter (fun q => decide (q ≠ p)))) r

/-- Delete the whole id key of a record from the reverse index; the type key
is kept. -/
def revDelId (r : Rev) (x : RecordIdentity) : Rev :=
  alMapAt x.type (alDel x.id) r

/-- Pointers contributed by one relationship slot of record x: one pointer
per related identity, tagged with the slot's reverse index path. -/
def relPointers (x : RecordIdentity) (relationship : String) :
    RelData → List (RecordIdentity × RevPath)
  | .one none => []
  | .one (some y) => [(y, ⟨x, relationship, none⟩)]
  | .many ys => ys.map (fun y => (y, ⟨x, relationship, some y⟩))

/-- All pointers contributed by a record's relationships. -/
def recordPointers (rec : RecordData) : List (RecordIdentity × RevPath) :=
  rec.relationships.foldl (fun acc rd => acc ++ relPointers rec.ident rd.1 rd.2) []

/-- Rebuild the reverse index from the whole record map, as processor
initialization after a cache reset does. -/
def revFromCache (c : Cache) : Rev :=
  c.foldl (fun r rec => (recordPointers rec).foldl (fun acc yp => revAdd acc yp.1 yp.2) r) []

/-- Current relationship data of a record in the cache. -/
def cacheGetRel (c : Cache) (x : RecordIdentity) (relationship : String) : Option RelData :=
  (c.find? (fun rec => decide (rec.ident = x))).bind
    (fun rec => alGet relationship rec.relationships)

/-- Prior related identity of a hasOne slot read from the cache. -/
def priorHasOne (c : Cache) (x : RecordIdentity) (relationship : String) :
    Option RecordIdentity :=
  match cacheGetRel c x relationship with
  | some (.one (some y)) => some y
  | _ => none

/-- Prior related identities of a hasMany slot read from the cache. -/
def priorHasMany (c : Cache) (x : RecordIdentity) (relationship : String) :
    List RecordIdentity :=
  match cacheGetRel c x relationship with
  | some (.many ys) => ys
  | _ => []

/-- Modelled from the spec: the before hook of the cache integrity processor
emits no operations and leaves the reverse index unchanged (the unit test
asserts an empty before result for every exercised operation). -/
def ciBefore (_c : Cache) (r : Rev) (_op : Op) : List Op × Rev :=
  ([], r)

/-- Modelled from the spec: for removeRecord the after hook walks the reverse
index entry of the removed record and emits one compensating operation per
recorded back-pointer, removeFromHasMany for a hasMany slot and replaceHasOne
with null for a hasOne slot; every other operation emits nothing.  The
reverse index itself is not touched by this hook. -/
def ciAfter (_c : Cache) (r : Rev) (op : Op) : List Op × Rev :=
  match op with
  | .removeRecord x =>
    ((revPaths r x.type x.id).map (fun p =>
      match p.key with
      | none => Op.replaceHasOne p.source p.relationship none
      | some _ => Op.removeFromHasMany p.source p.relationship x), r)
  | _ => ([], r)

/-- Modelled from the spec: the finally hook performs the reverse index
housekeeping.  addToHasMany records the new pointer; removeFromHasMany deletes
it; replaceHasOne clears the pointer recorded for the prior related record (as
read from the cache) and records the new one when non-null; replaceHasMany
diffs the prior and new related sets, clearing the pointers of records missing
from the new set and recording those of newly added records; addRecord records
all pointers of the record and replaceRecord first clears the pointers of the
prior version; removeRecord clears the pointers contributed by the removed
record's own relationships and then deletes the record's reverse index entry
wholesale. -/
def ciFinally (c : Cache) (r : Rev) (op : Op) : List Op × Rev :=
  match op with
  | .addToHasMany x relationship y =>
    ([], revAdd r y ⟨x, relationship, some y⟩)
  | .removeFromHasMany x relationship y =>
    ([], revDelPath r y ⟨x, relationship, some y⟩)
  | .replaceHasOne x relationship newRelated =>
    let r1 :=
      match priorHasOne c x relationship with
      | some oldY => revDelPath r oldY ⟨x, relationship, none⟩
      | none => r
    let r2 :=
      match newRelated with
      | some y => revAdd r1 y ⟨x, relationship, none⟩
      | none => r1
    ([], r2)
  | .replaceHasMany x relationship ys =>
    let prior := priorHasMany c x relationship
    let removed := prior.filter (fun k => !(decide (k ∈ ys)))
    let added := ys.filter (fun k => !(decide (k ∈ prior)))
    let r1 := removed.foldl (fun acc k => revDelPath acc k ⟨x, relationship, some k⟩) r
    let r2 := added.foldl (fun acc k => revAdd acc k ⟨x, relationship, some k⟩) r1
    ([], r2)
  | .addRecord rec =>
    ([], (recordPointers rec).foldl (fun acc yp => revAdd acc yp.1 yp.2) r)
  | .replaceRecord rec =>
    let priorPtrs :=
      match c.find? (fun other => decide (other.ident = rec.ident)) with
      | some prior => recordPointers prior
      | none => []
    let r1 := priorPtrs.foldl (fun acc yp => revDelPath acc yp.1 yp.2) r
    ([], (recordPointers rec).foldl (fun acc yp => revAdd acc yp.1 yp.2) r1)
  | .removeRecord x =>
    let fwd :=
      match c.find? (fun rec => decide (rec.ident = x)) with
      | some rec => recordPointers rec
      | none => []
    let r1 := fwd.foldl (fun acc yp => revDelPath acc yp.1 yp.2) r
    ([], revDelId r1 x)

/-- Replace (or install) a relationship slot of a record in the cache. -/
def cacheSetRel (c : Cache) (x : RecordIdentity) (relationship : String) (d : RelData) : Cache :=
  c.map (fun rec =>
    if rec.ident = x then
      { rec with relationships := alUpdate relationship (fun _ => d) d rec.relationships }
    else rec)

/-- Modelled from the spec: application of one operation to the record map
(the cache module is not among the sources).  A hasMany slot behaves as a set;
removeRecord deletes the record wholesale. -/
def applyOp (c : Cache) : Op → Cache
  | .addRecord rec =>
    (c.filter (fun other => decide (other.ident ≠ rec.ident))) ++ [rec]
  | .replaceRecord rec =>
    (c.filter (fun other => decide (other.ident ≠ rec.ident))) ++ [rec]
  | .removeRecord x => c.filter (fun rec => decide (rec.ident ≠ x))
  | .addToHasMany x relationship y =>
    let current := priorHasMany c x relationship
    cacheSetRel c x relationship (.many (if y ∈ current then current else current ++ [y]))
  | .removeFromHasMany x relationship y =>
    let current := priorHasMany c x relationship
    cacheSetRel c x relationship (.many (current.filter (fun k => decide (k ≠ y))))
  | .replaceHasMany x relationship ys => cacheSetRel c x relationship (.many ys)
  | .replaceHasOne x relationship y => cacheSetRel c x relationship (.one y)

/-! ## Concrete fixtures from the integrity processor unit test -/

/-- Identity of the earth planet record. -/
def earthId : RecordIdentity := ⟨"planet", "earth"⟩

/-- Identity of the human inhabitant record. -/
def humanId : RecordIdentity := ⟨"inhabitant", "human"⟩

/-- Identity of the saturn planet record. -/
def saturnId : RecordIdentity := ⟨"planet", "saturn"⟩

/-- Identity of the jupiter planet record. -/
def jupiterId : RecordIdentity := ⟨"planet", "jupiter"⟩

/-- Identity of the titan moon record. -/
def titanId : RecordIdentity := ⟨"moon", "titan"⟩

/-- Identity of the europa moon record. -/
def europaId : RecordIdentity := ⟨"moon", "europa"⟩

/-- Cache of the remove-record scenario: earth and human linked through the
inhabitants/planets hasMany pair. -/
def removeScenarioCache : Cache :=
  [⟨earthId, [("inhabitants", .many [humanId])]⟩,
   ⟨humanId, [("planets", .many [earthId])]⟩]

/-- Reverse index after resetting the cache of the remove-record scenario. -/
def removeScenarioRev : Rev := revFromCache removeScenarioCache

/-- Operations emitted by the after hook for removeRecord(human). -/
def removeScenarioAfterOps : List Op :=
  (ciAfter removeScenarioCache removeScenarioRev (.removeRecord humanId)).1

/-- Reverse index after the finally hook of removeRecord(human). -/
def removeScenarioRevFinal : Rev :=
  (ciFinally removeScenarioCache removeScenarioRev (.removeRecord humanId)).2

/-- Cache after applying removeRecord(human) followed by the compensating
operations emitted by the after hook. -/
def removeScenarioCacheFinal : Cache :=
  removeScenarioAfterOps.foldl applyOp (applyOp removeScenarioCache (.removeRecord humanId))

/-- Cache of the replaceHasMany scenario: saturn and jupiter with their moons
titan and europa, each moon pointing back at its planet. -/
def replaceHasManyScenarioCache : Cache :=
  [⟨saturnId, [("moons", .many [titanId])]⟩,
   ⟨jupiterId, [("moons", .many [europaId])]⟩,
   ⟨titanId, [("planet", .one (some saturnId))]⟩,
   ⟨europaId, [("planet", .one (some jupiterId))]⟩]

/-- Reverse index after resetting the cache of the replaceHasMany scenario. -/
def replaceHasManyScenarioRev : Rev := revFromCache replaceHasManyScenarioCache

/-- Reverse index after the finally hook of replaceHasMany(saturn, moons,
[europa]). -/
def replaceHasManyScenarioRevFinal : Rev :=
  (ciFinally replaceHasManyScenarioCache replaceHasManyScenarioRev
    (.replaceHasMany saturnId "moons" [europaId])).2

/-- Cache of the replaceHasOne scenario: saturn.next = jupiter with the
inverse jupiter.previous = saturn, and earth with no next. -/
def replaceHasOneScenarioCache : Cache :=
  [⟨saturnId, [("next", .one (some jupiterId))]⟩,
   ⟨jupiterId, [("previous", .one (some saturnId))]⟩,
   ⟨earthId, []⟩]

/-- Reverse index after resetting the cache of the replaceHasOne scenario. -/
def replaceHasOneScenarioRev : Rev := revFromCache replaceHasOneScenarioCache

/-- Reverse index after the finally hook of replaceHasOne(earth, next,
jupiter). -/
def replaceHasOneScenarioRevFinal : Rev :=
  (ciFinally replaceHasOneScenarioCache replaceHasOneScenarioRev
    (.replaceHasOne earthId "next" (some jupiterId))).2

/-- The compensating operation the spec prescribes for one back-pointer of a
removed record x: removeFromHasMany for a hasMany slot, replaceHasOne with
null for a hasOne slot (this is the claim-side phrasing compared against the
after hook). -/
def compensatingOp (x : RecordIdentity) (p : RevPath) : Op :=
  match p.key with
  | none => Op.replaceHasOne p.source p.relationship none
  | some _ => Op.removeFromHasMany p.source p.relationship x

/-- A concrete serializer with the standard behavior of the JSON:API
serializer on the test schema: types pluralize by appending s, resource ids
are the record ids, relationship names serialize to themselves. -/
def pluralizingSerializer : SerializerModel :=
  { resourceType := fun t => t ++ "s"
    resourceId := fun _ i => some i
    resourceRelationship := fun _ r => r }

/-! ## Lemmas about the association-list and reverse-index primitives -/

theorem alGet_alUpdate_self (k : String) (f : α → α) (d : α) (l : List (String × α)) :
    alGet k (alUpdate k f d l) = some (f ((alGet k l).getD d)) := by
  induction l with
  | nil => simp [alGet, alUpdate]
  | cons h t ih =>
    obtain ⟨k1, v⟩ := h
    by_cases hk : k1 = k
    · simp [alGet, alUpdate, hk]
    · simp [alGet, alUpdate, hk, ih]

theorem alGet_alUpdate_ne (hk : k' ≠ k) (f : α → α) (d : α) (l : List (String × α)) :
    alGet k' (alUpdate k f d l) = alGet k' l := by
  induction l with
  | nil => simp [alGet, alUpdate, Ne.symm hk]
  | cons h t ih =>
    obtain ⟨k1, v⟩ := h
    by_cases h1 : k1 = k
    · simp [alGet, alUpdate, h1, Ne.symm hk]
    · by_cases h2 : k1 = k'
      · simp [alGet, alUpdate, h1, h2, hk]
      · simp [alGet, alUpdate, h1, h2, ih]

theorem alGet_alMapAt_self (k : String) (f : α → α) (l : List (String × α)) :
    alGet k (alMapAt k f l) = (alGet k l).map f := by
  induction l with
  | nil => simp [alGet, alMapAt]
  | cons h t ih =>
    obtain ⟨k1, v⟩ := h
    by_cases hk : k1 = k
    · simp [alGet, alMapAt, hk]
    · simp [alGet, alMapAt, hk, ih]

theorem alGet_alMapAt_ne (hk : k' ≠ k) (f : α → α) (l : List (String × α)) :
    alGet k' (alMapAt k f l) = alGet k' l := by
  induction l with
  | nil => simp [alMapAt]
  | cons h t ih =>
    obtain ⟨k1, v⟩ := h
    by_cases h1 : k1 = k
    · simp [alGet, alMapAt, h1, Ne.symm hk]
    · by_cases h2 : k1 = k'
      · simp [alGet, alMapAt, h1, h2, hk]
      · simp [alGet, alMapAt, h1, h2, ih]

theorem alGet_alDel_self (k : String) (l : List (String × α)) :
    alGet k (alDel k l) = none := by
  induction l with
  | nil => simp [alGet, alDel]
  | cons h t ih =>
    obtain ⟨k1, v⟩ := h
    by_cases hk : k1 = k
    · simp [alDel, hk, ih]
    · simp [alGet, alDel, hk, ih]

theorem revPaths_eq (r : Rev) (t i : String) :
    revPaths r t i = (alGet i ((alGet t r).getD [])).getD [] := by
  unfold revPaths revLookup
  cases alGet t r <;> simp [alGet]

theorem mem_pushPath (p q : RevPath) (ps : PathSet) :
    p ∈ pushPath q ps ↔ p ∈ ps ∨ p = q := by
  unfold pushPath
  by_cases h : q ∈ ps
  · simp only [if_pos h]
    exact ⟨Or.inl, fun hpq => hpq.elim id (fun hh => hh ▸ h)⟩
  · simp [if_neg h]

theorem mem_revAdd (r : Rev) (y : RecordIdentity) (q p : RevPath) (t i : String) :
    p ∈ revPaths (revAdd r y q) t i ↔
      p ∈ revPaths r t i ∨ (t = y.type ∧ i = y.id ∧ p = q) := by
  unfold revAdd
  rw [revPaths_eq, revPaths_eq]
  by_cases ht : t = y.type
  · subst ht
    rw [alGet_alUpdate_self]
    by_cases hi : i = y.id
    · subst hi
      rw [Option.getD_some, alGet_alUpdate_self, Option.getD_some, mem_pushPath]
      simp
    · rw [Option.getD_some, alGet_alUpdate_ne (fun h => hi h)]
      simp [hi]
  · rw [alGet_alUpdate_ne (fun h => ht h)]
    simp [ht]

theorem mem_revDelPath (r : Rev) (y : RecordIdentity) (q p : RevPath) (t i : String) :
    p ∈ revPaths (revDelPath r y q) t i ↔
      p ∈ revPaths r t i ∧ ¬(t = y.type ∧ i = y.id ∧ p = q) := by
  unfold revDelPath
  rw [revPaths_eq, revPaths_eq]
  by_cases ht : t = y.type
  · subst ht
    rw [alGet_alMapAt_self]
    cases hm : alGet y.type r with
    | none => simp [alGet]
    | some m =>
      simp only [Option.map_some', Option.getD_some]
      by_cases hi : i = y.id
      · subst hi
        rw [alGet_alMapAt_self]
        cases hp : alGet y.id m with
        | none => simp
        | some ps =>
          simp only [Option.map_some', Option.getD_some]
          simp [List.mem_filter]
      · rw [alGet_alMapAt_ne hi]
        simp [hi]
  · rw [alGet_alMapAt_ne ht]
    simp [ht]

theorem revLookup_revDelId_self (r : Rev) (x : RecordIdentity) :
    revLookup (revDelId r x) x.type x.id = none := by
  unfold revDelId revLookup
  rw [alGet_alMapAt_self]
  cases alGet x.type r <;> simp [alGet_alDel_self]

theorem mem_foldl_revDelPath (g : RecordIdentity → RevPath) (L : List RecordIdentity)
    (r : Rev) (t i : String) (p : RevPath) :
    p ∈ revPaths (L.foldl (fun acc k => revDelPath acc k (g k)) r) t i ↔
      p ∈ revPaths r t i ∧ ∀ k ∈ L, ¬(t = k.type ∧ i = k.id ∧ p = g k) := by
  induction L generalizing r with
  | nil => simp
  | cons a L ih =>
    rw [List.foldl_cons, ih, mem_revDelPath]
    simp only [List.forall_mem_cons]
    tauto

theorem mem_foldl_revAdd (g : RecordIdentity → RevPath) (L : List RecordIdentity)
    (r : Rev) (t i : String) (p : RevPath) :
    p ∈ revPaths (L.foldl (fun acc k => revAdd acc k (g k)) r) t i ↔
      p ∈ revPaths r t i ∨ ∃ k ∈ L, t = k.type ∧ i = k.id ∧ p = g k := by
  induction L generalizing r with
  | nil => simp
  | cons a L ih =>
    rw [List.foldl_cons, ih, mem_revAdd]
    constructor
    · rintro (⟨hp | ha⟩ | ⟨k, hk, hrest⟩)
      · exact Or.inl hp
      · exact Or.inr ⟨a, List.mem_cons_self a L, ha⟩
      · exact Or.inr ⟨k, List.mem_cons_of_mem a hk, hrest⟩
    · rintro (hp | ⟨k, hk, hrest⟩)
      · exact Or.inl (Or.inl hp)
      · rcases List.mem_cons.mp hk with rfl | hk
        · exact Or.inl (Or.inr hrest)
        · exact Or.inr ⟨k, hk, hrest⟩

theorem recordIdentity_eq_of_fields {a b : RecordIdentity}
    (h1 : a.type = b.type) (h2 : a.id = b.id) : a = b := by
  cases a
  cases b
  cases h1
  cases h2
  rfl

/-! ## Auxiliary runs of the resolve emitter -/

theorem resolveRun_wins {V E : Type} (ctx : Bool) (pre rest : List (Outcome V E)) (v : V)
    (hpre : ∀ o ∈ pre, o.passedOver = true) :
    resolveRun ctx (pre ++ Outcome.resolves v :: rest)
      = (ResolveResult.resolved v, pre.length + 1) := by
  induction pre generalizing ctx with
  | nil => simp [resolveRun]
  | cons o pre ih =>
    have ho := hpre o (List.mem_cons_self o pre)
    have hpre2 := fun o2 ho2 => hpre o2 (List.mem_cons_of_mem o ho2)
    cases o with
    | falsy => simp [resolveRun, ih ctx hpre2]
    | resolves w => simp [Outcome.passedOver] at ho
    | rejects e => simp [resolveRun, ih true hpre2]
    | throws e => simp [Outcome.passedOver] at ho

theorem resolveRun_exhausted {V E : Type} (ctx : Bool) (l : List (Outcome V E))
    (hl : ∀ o ∈ l, o.passedOver = true) :
    resolveRun ctx l = (ResolveResult.rejected, l.length) := by
  induction l generalizing ctx with
  | nil => simp [resolveRun]
  | cons o l ih =>
    have ho := hl o (List.mem_cons_self o l)
    have hl2 := fun o2 ho2 => hl o2 (List.mem_cons_of_mem o ho2)
    cases o with
    | falsy => simp [resolveRun, ih ctx hl2]
    | resolves w => simp [Outcome.passedOver] at ho
    | rejects e => simp [resolveRun, ih true hl2]
    | throws e => simp [Outcome.passedOver] at ho

/-! ## Claim theorems -/

/-- Claim C2: the series emitter invokes the listeners sequentially in
registration order, awaiting each returned awaitable; the first listener whose
result rejects causes the composite promise to reject with that error and no
listener after the failing one is invoked (the invocation count stops right
after it); if no listener fails, the composite resolves after all listeners
ran. -/
theorem evented_series_spec {V E : Type} :
    (∀ (pre rest : List (Outcome V E)) (e : E),
      (∀ o ∈ pre, o.failed = false) →
      seriesRun (pre ++ Outcome.rejects e :: rest)
        = (EmitCompletion.rejected e, pre.length + 1))
    ∧ (∀ l : List (Outcome V E),
      (∀ o ∈ l, o.failed = false) →
      seriesRun l = (EmitCompletion.resolved, l.length)) := by
  constructor
  · intro pre rest e hpre
    induction pre with
    | nil => simp [seriesRun]
    | cons o pre ih =>
      have ho := hpre o (List.mem_cons_self o pre)
      have hpre2 := fun o2 ho2 => hpre o2 (List.mem_cons_of_mem o ho2)
      cases o with
      | falsy => simp [seriesRun, ih hpre2]
      | resolves w => simp [seriesRun, ih hpre2]
      | rejects e1 => simp [Outcome.failed] at ho
      | throws e1 => simp [Outcome.failed] at ho
  · intro l hl
    induction l with
    | nil => simp [seriesRun]
    | cons o l ih =>
      have ho := hl o (List.mem_cons_self o l)
      have hl2 := fun o2 ho2 => hl o2 (List.mem_cons_of_mem o ho2)
      cases o with
      | falsy => simp [seriesRun, ih hl2]
      | resolves w => simp [seriesRun, ih hl2]
      | rejects e1 => simp [Outcome.failed] at ho
      | throws e1 => simp [Outcome.failed] at ho

/-- Witness for claim C2 at concrete outcome lists. -/
theorem evented_series_spec_witness :
    seriesRun ([Outcome.falsy, Outcome.resolves 3, Outcome.rejects 9, Outcome.resolves 4]
        : List (Outcome Nat Nat))
      = (EmitCompletion.rejected 9, 3)
    ∧ seriesRun ([Outcome.falsy, Outcome.resolves 2] : List (Outcome Nat Nat))
      = (EmitCompletion.resolved, 2) :=
  ⟨(@evented_series_spec Nat Nat).1 [Outcome.falsy, Outcome.resolves 3] [Outcome.resolves 4] 9
      (by decide),
   (@evented_series_spec Nat Nat).2 [Outcome.falsy, Outcome.resolves 2] (by decide)⟩

/-- Claim C3: the resolve emitter invokes the listeners sequentially; the
first listener to return a truthy awaitable whose awaited value resolves wins,
the composite resolves with that value, and later listeners are not invoked;
if every listener is passed over (falsy return or rejecting awaitable),
including when the list is empty, the composite rejects. -/
theorem evented_resolve_spec {V E : Type} :
    (∀ (pre rest : List (Outcome V E)) (v : V),
      (∀ o ∈ pre, o.passedOver = true) →
      resolveRun false (pre ++ Outcome.resolves v :: rest)
        = (ResolveResult.resolved v, pre.length + 1))
    ∧ (∀ l : List (Outcome V E),
      (∀ o ∈ l, o.passedOver = true) →
      resolveRun false l = (ResolveResult.rejected, l.length)) :=
  ⟨fun pre rest v hpre => resolveRun_wins false pre rest v hpre,
   fun l hl => resolveRun_exhausted false l hl⟩

/-- Witness for claim C3 at concrete outcome lists. -/
theorem evented_resolve_spec_witness :
    resolveRun false ([Outcome.falsy, Outcome.rejects 5, Outcome.resolves 42, Outcome.falsy]
        : List (Outcome Nat Nat))
      = (ResolveResult.resolved 42, 3)
    ∧ resolveRun false ([Outcome.falsy, Outcome.rejects 5] : List (Outcome Nat Nat))
      = (ResolveResult.rejected, 2) :=
  ⟨(@evented_resolve_spec Nat Nat).1 [Outcome.falsy, Outcome.rejects 5] [Outcome.falsy] 42
      (by decide),
   (@evented_resolve_spec Nat Nat).2 [Outcome.falsy, Outcome.rejects 5] (by decide)⟩

/-- Claim C4: the settle emitter invokes every listener sequentially, awaiting
each returned awaitable; a listener that throws or whose result rejects does
not prevent the remaining listeners from running, and the composite always
resolves once all listeners have settled. -/
theorem evented_settle_spec {V E : Type} :
    ∀ l : List (Outcome V E), settleRun l = (EmitCompletion.resolved, l.length) := by
  intro l
  induction l with
  | nil => rfl
  | cons o l ih => cases o <;> simp [settleRun, ih]

/-- Counterexample to claim C5 as stated: after a failing process, complete is
not rebuilt (the promise generation is unchanged), so a subsequent successful
process leaves complete rejected and cannot resolve it. -/
theorem action_complete_not_rebuilt_counterexample :
    (Action.process (Action.initial : ActionState Nat Nat) (ProcOutcome.asyncRejects 7)).complete
      = PromiseState.rejectedWith 7
    ∧ (Action.process (Action.initial : ActionState Nat Nat)
        (ProcOutcome.asyncRejects 7)).processing = false
    ∧ (Action.process (Action.initial : ActionState Nat Nat)
        (ProcOutcome.asyncRejects 7)).completeGen
      = (Action.initial : ActionState Nat Nat).completeGen
    ∧ (Action.process
        (Action.process (Action.initial : ActionState Nat Nat) (ProcOutcome.asyncRejects 7))
        (ProcOutcome.asyncResolves 1)).complete = PromiseState.rejectedWith 7 := by
  decide

/-- Claim C5 amended: when the wrapped function fails (synchronous throw or
rejecting awaitable), the action's complete promise rejects with the failure
and the processing flag resets to false so process may be invoked again; the
failure itself does not rebuild complete (its generation is unchanged, and a
retried success leaves it rejected) — complete is rebuilt only by an explicit
reset, after which a successful process resolves the new complete. -/
theorem action_failure_retry_spec {V E : Type} :
    ∀ (s : ActionState V E) (o : ProcOutcome V E) (e : E),
      s.processing = false →
      s.complete = PromiseState.pending →
      o.failure = some e →
      (Action.process s o).complete = PromiseState.rejectedWith e
      ∧ (Action.process s o).processing = false
      ∧ (Action.process s o).completeGen = s.completeGen
      ∧ (Action.reset (Action.process s o)).completeGen = s.completeGen + 1
      ∧ (∀ v : V,
          (Action.process (Action.reset (Action.process s o))
            (ProcOutcome.asyncResolves v)).complete = PromiseState.resolvedWith v
          ∧ (Action.process (Action.process s o)
              (ProcOutcome.asyncResolves v)).complete = PromiseState.rejectedWith e) := by
  intro s o e hproc hcomp hfail
  cases o with
  | syncReturn v => simp [ProcOutcome.failure] at hfail
  | asyncResolves v => simp [ProcOutcome.failure] at hfail
  | asyncRejects e1 =>
    simp only [ProcOutcome.failure, Option.some.injEq] at hfail
    subst hfail
    simp [Action.process, Action.reset, hproc, hcomp, PromiseState.reject, PromiseState.resolve]
  | syncThrows e1 =>
    simp only [ProcOutcome.failure, Option.some.injEq] at hfail
    subst hfail
    simp [Action.process, Action.reset, hproc, hcomp, PromiseState.reject, PromiseState.resolve]

/-- Witness for the amended claim C5 at a concrete action run. -/
theorem action_failure_retry_spec_witness :
    (Action.process (Action.initial : ActionState Nat Nat) (ProcOutcome.syncThrows 3)).complete
      = PromiseState.rejectedWith 3
    ∧ (Action.process
        (Action.reset (Action.process (Action.initial : ActionState Nat Nat)
          (ProcOutcome.syncThrows 3)))
        (ProcOutcome.asyncResolves 8)).complete = PromiseState.resolvedWith 8 := by
  have h := action_failure_retry_spec (Action.initial : ActionState Nat Nat)
    (ProcOutcome.syncThrows 3) 3 (by decide) (by decide) (by decide)
  exact ⟨h.1, (h.2.2.2.2 8).1⟩

/-- Claim C6: with a configured (nonzero) request cap that the derived request
list exceeds, the internal transform entry point rejects with
TransformNotAllowed and dispatches no request, and the internal fetch entry
point likewise rejects with FetchNotAllowed without dispatching. -/
theorem jsonapi_maxRequests_spec {Req Er Tr : Type} :
    (∀ (maxT : Nat) (proc : Req → Except Er (List Tr)) (transform : Tr)
        (requests : List Req),
      maxT ≠ 0 → requests.length > maxT →
      JSONAPISource.transformImpl maxT proc transform requests
        = (TransformResult.transformNotAllowed requests.length maxT, []))
    ∧ (∀ (maxF : Nat) (proc : Req → Except Er (List Tr)) (requests : List Req),
      maxF ≠ 0 → requests.length > maxF →
      JSONAPISource.fetchImpl maxF proc requests
        = (FetchResult.fetchNotAllowed requests.length maxF, [])) := by
  constructor
  · intro maxT proc transform requests h1 h2
    unfold JSONAPISource.transformImpl
    rw [if_pos ⟨h1, h2⟩]
  · intro maxF proc requests h1 h2
    unfold JSONAPISource.fetchImpl
    rw [if_pos ⟨h1, h2⟩]

/-- Witness for claim C6 at a concrete capped source. -/
theorem jsonapi_maxRequests_spec_witness :
    JSONAPISource.transformImpl 1 (fun _ : Nat => (Except.ok [] : Except Nat (List Nat))) 0 [0, 1]
      = (TransformResult.transformNotAllowed 2 1, [])
    ∧ JSONAPISource.fetchImpl 1 (fun _ : Nat => (Except.ok [] : Except Nat (List Nat))) [0, 1]
      = (FetchResult.fetchNotAllowed 2 1, []) :=
  ⟨(@jsonapi_maxRequests_spec Nat Nat Nat).1 1 (fun _ => Except.ok []) 0 [0, 1]
      (by decide) (by decide),
   (@jsonapi_maxRequests_spec Nat Nat Nat).2 1 (fun _ => Except.ok []) [0, 1]
      (by decide) (by decide)⟩

/-- Claim C9: resource URLs compose the optional host, the optional namespace,
the pluralized (serialized) resource type and the optional resource id joined
with slashes, with a leading slash when no host is configured; the
relationship endpoint appends the relationships segment and the serialized
relationship name to the resource URL, so addToHasMany maps to a POST against
that endpoint, concretely POST /planets/jupiter/relationships/moons. -/
theorem jsonapi_url_spec :
    (∀ (ser : SerializerModel) (type : String) (id : Option String),
      JSONAPISource.resourceURL none none ser type id
        = "/" ++ JSONAPISource.resourcePath ser type id)
    ∧ (∀ (ser : SerializerModel) (type : String) (id : Option String) (n : String),
      n ≠ "" →
      JSONAPISource.resourceURL none (some n) ser type id
        = "/" ++ (n ++ "/" ++ JSONAPISource.resourcePath ser type id))
    ∧ (∀ (ser : SerializerModel) (type : String) (id : Option String) (h : String),
      h ≠ "" →
      JSONAPISource.resourceURL (some h) none ser type id
        = h ++ "/" ++ JSONAPISource.resourcePath ser type id)
    ∧ (∀ (host nspace : Option String) (ser : SerializerModel) (type : String)
        (id : Option String) (relationship : String),
      JSONAPISource.resourceRelationshipURL host nspace ser type id relationship
        = JSONAPISource.resourceURL host nspace ser type id ++ "/relationships/"
          ++ ser.resourceRelationship type relationship)
    ∧ (∀ (host nspace : Option String) (ser : SerializerModel)
        (type id relationship : String),
      addToHasManyRequest host nspace ser type id relationship
        = ("POST",
           JSONAPISource.resourceRelationshipURL host nspace ser type (some id) relationship))
    ∧ addToHasManyRequest none none pluralizingSerializer "planet" "jupiter" "moons"
        = ("POST", "/planets/jupiter/relationships/moons") := by
  refine ⟨?_, ?_, ?_, ?_, ?_, ?_⟩
  · intro ser type id
    rfl
  · intro ser type id n hn
    simp [JSONAPISource.resourceURL, jsTruthy, hn, joinSlash]
  · intro ser type id h hh
    simp [JSONAPISource.resourceURL, jsTruthy, hh, joinSlash]
  · intro host nspace ser type id relationship
    rfl
  · intro host nspace ser type id relationship
    rfl
  · decide

/-- Witness for claim C9 at a concrete nonempty namespace and host. -/
theorem jsonapi_url_spec_witness :
    JSONAPISource.resourceURL none (some "api") pluralizingSerializer "planet" (some "earth")
      = "/api/planets/earth"
    ∧ JSONAPISource.resourceURL (some "http://example.com") none pluralizingSerializer
        "planet" (some "earth")
      = "http://example.com/planets/earth" := by
  constructor
  · have h := jsonapi_url_spec.2.1 pluralizingSerializer "planet" (some "earth") "api"
      (by decide)
    rw [h]
    decide
  · have h := jsonapi_url_spec.2.2.1 pluralizingSerializer "planet" (some "earth")
      "http://example.com" (by decide)
    rw [h]
    decide

/-- Claim C10: calling off with no callback supplied deletes the event's whole
notifier, deregistering every listener of that event at once (the subsequent
listeners lookup for that event is empty), whereas supplying a callback
removes only the first matching listener/binding registration. -/
theorem evented_off_spec :
    (∀ (s : EventedState) (eventName : String) (binding : Nat),
      Evented.listeners (Evented.off s eventName none binding) eventName = [])
    ∧ (∀ (s : EventedState) (eventName : String) (callback binding : Nat),
      Evented.listeners (Evented.off s eventName (some callback) binding) eventName
        = removeFirst (fun p => decide (p = (callback, binding)))
            (Evented.listeners s eventName)) := by
  constructor
  · intro s eventName binding
    unfold Evented.off Evented.listeners
    cases hget : alGet eventName s.notifiers with
    | none => simp [hget]
    | some n => simp [alGet_alDel_self]
  · intro s eventName callback binding
    unfold Evented.off Evented.listeners
    cases hget : alGet eventName s.notifiers with
    | none => simp [hget, removeFirst]
    | some n => simp [hget, alGet_alMapAt_self, Notifier.removeListener]

/-- Claim C1: for removeRecord the after hook of the integrity processor
returns exactly one compensating operation (removeFromHasMany for a hasMany
back-pointer, replaceHasOne with null for a hasOne back-pointer) per entry
recorded under the removed record in the reverse index, and after the finally
hook the removed record's reverse index entry is gone; concretely, with earth
and human linked through inhabitants/planets, removing human emits the
removeFromHasMany on earth, applying it empties earth's inhabitants data, the
human entry disappears from the reverse index and the earth entry is left
present but empty. -/
theorem cacheIntegrity_removeRecord_spec :
    (∀ (c : Cache) (r : Rev) (x : RecordIdentity),
      (ciAfter c r (Op.removeRecord x)).1
        = (revPaths r x.type x.id).map (compensatingOp x)
      ∧ revLookup (ciFinally c r (Op.removeRecord x)).2 x.type x.id = none)
    ∧ ((ciBefore removeScenarioCache removeScenarioRev (Op.removeRecord humanId)).1 = []
      ∧ removeScenarioAfterOps = [Op.removeFromHasMany earthId "inhabitants" humanId]
      ∧ (ciFinally removeScenarioCache removeScenarioRev (Op.removeRecord humanId)).1 = []
      ∧ revLookup removeScenarioRevFinal "inhabitant" "human" = none
      ∧ revLookup removeScenarioRevFinal "planet" "earth" = some []
      ∧ cacheGetRel removeScenarioCacheFinal earthId "inhabitants" = some (RelData.many [])
      ∧ List.find? (fun rec => decide (rec.ident = humanId)) removeScenarioCacheFinal
          = none) := by
  constructor
  · intro c r x
    exact ⟨rfl, revLookup_revDelId_self _ x⟩
  · exact ⟨rfl, by decide, by decide, by decide, by decide, by decide, by decide⟩

/-- Claim C7: the finally hook of replaceHasMany updates the reverse index by
diffing the prior and new related sets: entries of records missing from the
new set are cleared, entries of newly added records are created, and entries
whose path belongs to another source record or relationship are unchanged;
concretely, with saturn.moons = titan and jupiter.moons = europa, replacing
saturn's moons by europa leaves the europa entry holding both jupiter's
(unchanged) and saturn's (new) paths and leaves the titan entry present but
empty. -/
theorem cacheIntegrity_replaceHasMany_spec :
    (∀ (c : Cache) (r : Rev) (x : RecordIdentity) (relationship : String)
        (ys : List RecordIdentity) (t i : String) (p : RevPath),
      p.source ≠ x ∨ p.relationship ≠ relationship →
      (p ∈ revPaths (ciFinally c r (Op.replaceHasMany x relationship ys)).2 t i ↔
        p ∈ revPaths r t i))
    ∧ (∀ (c : Cache) (r : Rev) (x : RecordIdentity) (relationship : String)
        (ys : List RecordIdentity) (k : RecordIdentity),
      k ∈ priorHasMany c x relationship → k ∉ ys →
      (⟨x, relationship, some k⟩ : RevPath) ∉
        revPaths (ciFinally c r (Op.replaceHasMany x relationship ys)).2 k.type k.id)
    ∧ (∀ (c : Cache) (r : Rev) (x : RecordIdentity) (relationship : String)
        (ys : List RecordIdentity) (k : RecordIdentity),
      k ∈ ys → k ∉ priorHasMany c x relationship →
      (⟨x, relationship, some k⟩ : RevPath) ∈
        revPaths (ciFinally c r (Op.replaceHasMany x relationship ys)).2 k.type k.id)
    ∧ (revPaths replaceHasManyScenarioRevFinal "moon" "europa"
        = [⟨jupiterId, "moons", some europaId⟩, ⟨saturnId, "moons", some europaId⟩]
      ∧ revLookup replaceHasManyScenarioRevFinal "moon" "titan" = some []
      ∧ revPaths replaceHasManyScenarioRev "moon" "europa"
        = [⟨jupiterId, "moons", some europaId⟩]) := by
  refine ⟨?_, ?_, ?_, by decide, by decide, by decide⟩
  · intro c r x relationship ys t i p hp
    have hne : ∀ (k : RecordIdentity), p ≠ (⟨x, relationship, some k⟩ : RevPath) := by
      intro k hpk
      rcases hp with h | h
      · exact h (by rw [hpk])
      · exact h (by rw [hpk])
    simp only [ciFinally]
    rw [mem_foldl_revAdd, mem_foldl_revDelPath]
    constructor
    · rintro (⟨hmem, _⟩ | ⟨k, _, _, _, hpk⟩)
      · exact hmem
      · exact absurd hpk (hne k)
    · intro hmem
      exact Or.inl ⟨hmem, fun k _ hand => hne k hand.2.2⟩
  · intro c r x relationship ys k hkp hky
    simp only [ciFinally]
    rw [mem_foldl_revAdd, mem_foldl_revDelPath]
    rintro (⟨hmem, hall⟩ | ⟨k2, hk2, ht, hi, hpk⟩)
    · have hkrem : k ∈ (priorHasMany c x relationship).filter
          (fun a => !(decide (a ∈ ys))) :=
        List.mem_filter.mpr ⟨hkp, by simp [hky]⟩
      exact hall k hkrem ⟨rfl, rfl, rfl⟩
    · have hkk : k = k2 := by simpa using congrArg RevPath.key hpk
      subst hkk
      exact hky (List.mem_of_mem_filter hk2)
  · intro c r x relationship ys k hky hkp
    simp only [ciFinally]
    rw [mem_foldl_revAdd]
    refine Or.inr ⟨k, List.mem_filter.mpr ⟨hky, by simp [hkp]⟩, rfl, rfl, rfl⟩

/-- Witness for claim C7 at the scenario's cleared and added entries. -/
theorem cacheIntegrity_replaceHasMany_spec_witness :
    (⟨saturnId, "moons", some titanId⟩ : RevPath) ∉
      revPaths (ciFinally replaceHasManyScenarioCache replaceHasManyScenarioRev
        (Op.replaceHasMany saturnId "moons" [europaId])).2 titanId.type titanId.id
    ∧ (⟨saturnId, "moons", some europaId⟩ : RevPath) ∈
      revPaths (ciFinally replaceHasManyScenarioCache replaceHasManyScenarioRev
        (Op.replaceHasMany saturnId "moons" [europaId])).2 europaId.type europaId.id :=
  ⟨cacheIntegrity_replaceHasMany_spec.2.1 replaceHasManyScenarioCache
      replaceHasManyScenarioRev saturnId "moons" [europaId] titanId (by decide) (by decide),
   cacheIntegrity_replaceHasMany_spec.2.2.1 replaceHasManyScenarioCache
      replaceHasManyScenarioRev saturnId "moons" [europaId] europaId (by decide) (by decide)⟩

/-- Claim C8: the finally hook of replaceHasOne clears the reverse index entry
recorded for the record's prior related record (read from the cache) and adds
the entry of the new related record, leaving entries of other source records
intact; concretely, with saturn.next = jupiter already indexed, replacing
earth's next by jupiter leaves the jupiter entry holding both saturn's and
earth's next paths. -/
theorem cacheIntegrity_replaceHasOne_spec :
    (∀ (c : Cache) (r : Rev) (x : RecordIdentity) (relationship : String)
        (newRelated : Option RecordIdentity) (t i : String) (p : RevPath),
      p ≠ ⟨x, relationship, none⟩ →
      (p ∈ revPaths (ciFinally c r (Op.replaceHasOne x relationship newRelated)).2 t i ↔
        p ∈ revPaths r t i))
    ∧ (∀ (c : Cache) (r : Rev) (x : RecordIdentity) (relationship : String)
        (y : RecordIdentity),
      (⟨x, relationship, none⟩ : RevPath) ∈
        revPaths (ciFinally c r (Op.replaceHasOne x relationship (some y))).2 y.type y.id)
    ∧ (∀ (c : Cache) (r : Rev) (x : RecordIdentity) (relationship : String)
        (oldY : RecordIdentity) (newRelated : Option RecordIdentity),
      priorHasOne c x relationship = some oldY →
      (∀ y, newRelated = some y → y ≠ oldY) →
      (⟨x, relationship, none⟩ : RevPath) ∉
        revPaths (ciFinally c r (Op.replaceHasOne x relationship newRelated)).2
          oldY.type oldY.id)
    ∧ (revPaths replaceHasOneScenarioRevFinal "planet" "jupiter"
        = [⟨saturnId, "next", none⟩, ⟨earthId, "next", none⟩]
      ∧ revPaths replaceHasOneScenarioRev "planet" "jupiter"
        = [⟨saturnId, "next", none⟩]) := by
  refine ⟨?_, ?_, ?_, by decide, by decide⟩
  · intro c r x relationship newRelated t i p hp
    simp only [ciFinally]
    cases hprior : priorHasOne c x relationship with
    | none =>
      cases newRelated with
      | none => exact Iff.rfl
      | some y =>
        rw [mem_revAdd]
        constructor
        · rintro (h | ⟨_, _, hpk⟩)
          · exact h
          · exact absurd hpk hp
        · exact Or.inl
    | some oldY =>
      cases newRelated with
      | none =>
        rw [mem_revDelPath]
        exact ⟨fun h => h.1, fun h => ⟨h, fun hand => hp hand.2.2⟩⟩
      | some y =>
        rw [mem_revAdd, mem_revDelPath]
        constructor
        · rintro (⟨h, _⟩ | ⟨_, _, hpk⟩)
          · exact h
          · exact absurd hpk hp
        · intro h
          exact Or.inl ⟨h, fun hand => hp hand.2.2⟩
  · intro c r x relationship y
    simp only [ciFinally]
    cases hprior : priorHasOne c x relationship with
    | none => exact (mem_revAdd _ y _ _ _ _).mpr (Or.inr ⟨rfl, rfl, rfl⟩)
    | some oldY => exact (mem_revAdd _ y _ _ _ _).mpr (Or.inr ⟨rfl, rfl, rfl⟩)
  · intro c r x relationship oldY newRelated hprior hnew
    simp only [ciFinally]
    rw [hprior]
    cases newRelated with
    | none =>
      rw [mem_revDelPath]
      rintro ⟨_, hno⟩
      exact hno ⟨rfl, rfl, rfl⟩
    | some y =>
      rw [mem_revAdd, mem_revDelPath]
      rintro (⟨_, hno⟩ | ⟨ht, hi, _⟩)
      · exact hno ⟨rfl, rfl, rfl⟩
      · exact hnew y rfl (recordIdentity_eq_of_fields ht hi).symm

/-- Witness for claim C8: clearing saturn's next pointer removes its recorded
reverse index entry under jupiter. -/
theorem cacheIntegrity_replaceHasOne_spec_witness :
    (⟨saturnId, "next", none⟩ : RevPath) ∉
      revPaths (ciFinally replaceHasOneScenarioCache replaceHasOneScenarioRev
        (Op.replaceHasOne saturnId "next" none)).2 jupiterId.type jupiterId.id :=
  cacheIntegrity_replaceHasOne_spec.2.2.1 replaceHasOneScenarioCache
    replaceHasOneScenarioRev saturnId "next" jupiterId none (by decide)
    (fun y hy => Option.noConfusion hy)

end Orbit

